import Mathlib

/-!
Shallow embedding of the customer-experience analytics pipeline for fintech
app reviews: text normalisation, sentiment classification, keyword
extraction, theme assignment, pipeline orchestration, the asynchronous
translation step of the data-quality layer, and the per-bank analyzer,
translated from the repository's Python sources.

Conventions: Python text is modelled as `List Char` (a Python `str` is a
sequence of code points); Python floats are modelled as `ℚ` (only order and
sign of the numeric weights matter to the verified properties); values that
may be a string, `None`, or some other non-string object are modelled by
`TextVal`; functions that may raise are modelled with `Except`.
-/

/-- A Python value handed to a text-consuming function: a string, `None`,
or some other non-string object. -/
inductive TextVal where
  | str (s : List Char)
  | null
  | nonString
deriving DecidableEq, Repr

/-- Python `str.lower()` (character-wise lowering, ASCII-faithful). -/
def lowerText (s : List Char) : List Char :=
  s.map Char.toLower

/-- Python `str.strip()`: remove leading and trailing whitespace. -/
def pyStrip (s : List Char) : List Char :=
  ((s.dropWhile Char.isWhitespace).reverse.dropWhile Char.isWhitespace).reverse

/-- Truthiness test used throughout the sources:
`isinstance(text, str) and text.strip()`. -/
def isValidText : TextVal → Bool
  | .str s => !(pyStrip s).isEmpty
  | .null => false
  | .nonString => false

/-- Test `startsWithChars p s` holds when `p` is an initial segment of `s`. -/
def startsWithChars : List Char → List Char → Bool
  | [], _ => true
  | _ :: _, [] => false
  | p :: ps, c :: cs => p == c && startsWithChars ps cs

/-- Python's substring test `pat in s` on character sequences. -/
def containsChars (pat : List Char) : List Char → Bool
  | [] => startsWithChars pat []
  | c :: cs => startsWithChars pat (c :: cs) || containsChars pat cs

/-! ## Theme Assigner (src/features/theme_clustering.py) -/

/-- The `keyword_theme_map` dictionary of `assign_themes`, in its Python
insertion order, with the pattern keys as character lists. -/
def keyword_theme_map : List (List Char × String) :=
  [("login".toList, "Account Access Issues"),
   ("password".toList, "Account Access Issues"),
   ("crash".toList, "Reliability"),
   ("slow".toList, "Transaction Performance"),
   ("support".toList, "Customer Support"),
   ("interface".toList, "User Experience"),
   ("design".toList, "User Experience"),
   ("feature".toList, "Feature Requests"),
   ("update".toList, "Feature Requests")]

/-- The themes whose pattern occurs in `kw.lower()` (the inner loop of
`assign_themes`: `if key in kw_lower`). -/
def themesOfKeyword (kw : List Char) : List String :=
  keyword_theme_map.filterMap fun e =>
    if containsChars e.1 (lowerText kw) then some e.2 else none

/-- All matched themes over the keyword list, with repetitions (the
`assigned_themes` set before deduplication). -/
def matchedThemes (keywords : List (List Char)) : List String :=
  keywords.flatMap themesOfKeyword

/-- Function `assign_themes`: the set of matched themes, `['Miscellaneous']` when
empty, otherwise sorted alphabetically (`sorted(assigned_themes)`). -/
def assign_themes (keywords : List (List Char)) : List String :=
  let assigned := (matchedThemes keywords).dedup
  if assigned = [] then ["Miscellaneous"]
  else List.insertionSort (fun a b => a ≤ b) assigned

lemma mem_themesOfKeyword_ne_misc {t : String} {kw : List Char}
    (ht : t ∈ themesOfKeyword kw) : t ≠ "Miscellaneous" := by
  simp only [themesOfKeyword, List.mem_filterMap] at ht
  obtain ⟨e, he, hcond⟩ := ht
  have he2 : t = e.2 := by
    by_cases hc : containsChars e.1 (lowerText kw) = true
    · rw [if_pos hc] at hcond
      exact (Option.some.inj hcond).symm
    · rw [if_neg hc] at hcond
      cases hcond
  subst he2
  fin_cases he <;> decide

lemma mem_matchedThemes_ne_misc {t : String} {K : List (List Char)}
    (ht : t ∈ matchedThemes K) : t ≠ "Miscellaneous" := by
  simp only [matchedThemes, List.mem_flatMap] at ht
  obtain ⟨kw, _, hkw⟩ := ht
  exact mem_themesOfKeyword_ne_misc hkw

lemma matchedThemes_eq_nil_iff (K : List (List Char)) :
    matchedThemes K = [] ↔
      ∀ kw ∈ K, ∀ p ∈ keyword_theme_map,
        containsChars p.1 (lowerText kw) = false := by
  simp only [matchedThemes, List.flatMap_eq_nil_iff, themesOfKeyword,
    List.filterMap_eq_nil_iff]
  constructor
  · intro h kw hkw p hp
    have h2 := h kw hkw p hp
    cases hc : containsChars p.1 (lowerText kw)
    · rfl
    · rw [hc] at h2
      simp at h2
  · intro h kw hkw p hp
    rw [h kw hkw p hp]
    simp

/-- C2: `assign_themes` returns a non-empty, duplicate-free, alphabetically
sorted list of themes, and the result is exactly `["Miscellaneous"]` iff no
keyword contains any taxonomy pattern as a case-insensitive substring. -/
theorem assign_themes_spec (K : List (List Char)) :
    assign_themes K ≠ [] ∧
    (assign_themes K).Nodup ∧
    (assign_themes K).Sorted (fun a b => a ≤ b) ∧
    (assign_themes K = ["Miscellaneous"] ↔
      ∀ kw ∈ K, ∀ p ∈ keyword_theme_map,
        containsChars p.1 (lowerText kw) = false) := by
  by_cases h : (matchedThemes K).dedup = []
  · have hmt : matchedThemes K = [] := (List.dedup_eq_nil _).mp h
    refine ⟨?_, ?_, ?_, ?_⟩
    · simp [assign_themes, h]
    · simp [assign_themes, h]
    · simp only [assign_themes, h, if_pos rfl]
      exact List.sorted_singleton _
    · simp only [assign_themes, h, if_pos rfl]
      simpa using (matchedThemes_eq_nil_iff K).mp hmt
  · have hres : assign_themes K =
        List.insertionSort (fun a b => a ≤ b) (matchedThemes K).dedup := by
      simp [assign_themes, h]
    have hperm := List.perm_insertionSort (fun a b : String => a ≤ b)
      (matchedThemes K).dedup
    refine ⟨?_, ?_, ?_, ?_⟩
    · rw [hres]
      intro hnil
      have hlen := hperm.length_eq
      rw [hnil] at hlen
      exact h (List.length_eq_zero.mp hlen.symm)
    · rw [hres]
      exact hperm.nodup_iff.mpr (List.nodup_dedup _)
    · rw [hres]
      exact List.sorted_insertionSort _ _
    · rw [hres]
      constructor
      · intro heq
        exfalso
        have hmem : "Miscellaneous" ∈ (matchedThemes K).dedup := by
          have hm : "Miscellaneous" ∈
              List.insertionSort (fun a b : String => a ≤ b)
                (matchedThemes K).dedup := by
            rw [heq]
            simp
          exact hperm.mem_iff.mp hm
        exact mem_matchedThemes_ne_misc (List.mem_dedup.mp hmem) rfl
      · intro hall
        exact absurd ((List.dedup_eq_nil _).mpr
          ((matchedThemes_eq_nil_iff K).mpr hall)) h

/-- Concrete check of C2: the spec's scenario
`assign_themes(["login issue","password reset"]) == {"Account Access Issues"}`,
together with an application of the main theorem at that input. -/
theorem assign_themes_spec_witness :
    assign_themes ["login issue".toList, "password reset".toList] =
      ["Account Access Issues"] ∧
    assign_themes ["login issue".toList, "password reset".toList] ≠ [] := by
  refine ⟨by decide, ?_⟩
  exact (assign_themes_spec ["login issue".toList, "password reset".toList]).1

/-! ## Sentiment Classifier (src/src/models/sentiment_model.py) -/

/-- The two exception kinds of `analyze_sentiment`: `ValueError` for invalid
input, `RuntimeError` when the model pipeline is not loaded. -/
inductive SentimentError where
  | valueError
  | runtimeError
deriving DecidableEq, Repr

/-- The external HuggingFace pipeline: maps the (already truncated) input
text to the raw fields `result["label"]` and `result["score"]`. -/
def Classifier := List Char → List Char × ℚ

/-- Function `analyze_sentiment`: validate the input, check the module-level
`sentiment_pipeline`, truncate to 512 characters (`text[:512]`), classify,
and lowercase the label. -/
def analyze_sentiment (sentiment_pipeline : Option Classifier)
    (text : TextVal) : Except SentimentError (List Char × ℚ) :=
  match text with
  | .str s =>
    if (pyStrip s).isEmpty then .error .valueError
    else
      match sentiment_pipeline with
      | none => .error .runtimeError
      | some clf =>
        let result := clf (List.take 512 s)
        .ok (lowerText result.1, result.2)
  | _ => .error .valueError

/-- Function `safe_analyze_sentiment`: re-validate, delegate to `analyze_sentiment`,
and turn any raised exception into the `("neutral", 0.0)` fallback. -/
def safe_analyze_sentiment (sentiment_pipeline : Option Classifier)
    (text : TextVal) : List Char × ℚ :=
  if isValidText text = false then ("neutral".toList, 0)
  else
    match analyze_sentiment sentiment_pipeline text with
    | .ok r => r
    | .error _ => ("neutral".toList, 0)

/-- C4: with a loaded classifier and a valid text, `analyze_sentiment` hands
the classifier exactly the first 512 characters of the input, and therefore
texts agreeing on their first 512 characters classify identically. -/
theorem analyze_sentiment_truncates (clf : Classifier) (s : List Char)
    (h : isValidText (.str s) = true) :
    analyze_sentiment (some clf) (.str s) =
      .ok (lowerText (clf (List.take 512 s)).1, (clf (List.take 512 s)).2) ∧
    ∀ t : List Char, isValidText (.str t) = true →
      List.take 512 s = List.take 512 t →
      analyze_sentiment (some clf) (.str s) =
        analyze_sentiment (some clf) (.str t) := by
  have hs : (pyStrip s).isEmpty = false := by
    simpa [isValidText] using h
  constructor
  · simp [analyze_sentiment, hs]
  · intro t ht htk
    have hts : (pyStrip t).isEmpty = false := by
      simpa [isValidText] using ht
    simp [analyze_sentiment, hs, hts, htk]

set_option maxRecDepth 8000

/-- Concrete check of C4: a 600-character review reaches a classifier that
reports the length of the text it receives, and that length is 512. -/
theorem analyze_sentiment_truncates_witness :
    analyze_sentiment (some (fun t => ("POSITIVE".toList, (t.length : ℚ))))
      (.str (List.replicate 600 'a')) = .ok ("positive".toList, 512) := by
  rw [(analyze_sentiment_truncates (fun t => ("POSITIVE".toList, (t.length : ℚ)))
    (List.replicate 600 'a') (by decide)).1]
  simp only [List.take_replicate, List.length_replicate]
  norm_num
  decide

/-- C5: invalid inputs (empty string, whitespace-only string, `None`, any
non-string) make `analyze_sentiment` raise the input-validation error;
`safe_analyze_sentiment` is total, returns `("neutral", 0.0)` on exactly
those inputs, and otherwise forwards a successful classification. -/
theorem safe_analyze_sentiment_spec (pipe : Option Classifier) :
    (∀ s : List Char, pyStrip s = [] →
      analyze_sentiment pipe (.str s) = .error .valueError ∧
      safe_analyze_sentiment pipe (.str s) = ("neutral".toList, 0)) ∧
    (analyze_sentiment pipe .null = .error .valueError ∧
      safe_analyze_sentiment pipe .null = ("neutral".toList, 0)) ∧
    (analyze_sentiment pipe .nonString = .error .valueError ∧
      safe_analyze_sentiment pipe .nonString = ("neutral".toList, 0)) ∧
    (∀ t : TextVal, safe_analyze_sentiment pipe t = ("neutral".toList, 0) ∨
      analyze_sentiment pipe t = .ok (safe_analyze_sentiment pipe t)) := by
  refine ⟨?_, ?_, ?_, ?_⟩
  · intro s hstrip
    have hs : (pyStrip s).isEmpty = true := by
      simp [hstrip]
    constructor
    · simp [analyze_sentiment, hs]
    · simp [safe_analyze_sentiment, isValidText, hs]
  · exact ⟨by simp [analyze_sentiment], by simp [safe_analyze_sentiment, isValidText]⟩
  · exact ⟨by simp [analyze_sentiment], by simp [safe_analyze_sentiment, isValidText]⟩
  · intro t
    match t with
    | .null => left; simp [safe_analyze_sentiment, isValidText]
    | .nonString => left; simp [safe_analyze_sentiment, isValidText]
    | .str s =>
      by_cases hs : (pyStrip s).isEmpty
      · left
        simp [safe_analyze_sentiment, isValidText, hs]
      · match hp : pipe with
        | none =>
          left
          simp [safe_analyze_sentiment, isValidText, hs, analyze_sentiment]
        | some clf =>
          right
          simp [safe_analyze_sentiment, isValidText, hs, analyze_sentiment]

/-- Concrete check of C5 at the whitespace-only input `"   "` with an
unloaded pipeline. -/
theorem safe_analyze_sentiment_spec_witness :
    analyze_sentiment none (.str "   ".toList) = .error .valueError ∧
    safe_analyze_sentiment none (.str "   ".toList) = ("neutral".toList, 0) :=
  (safe_analyze_sentiment_spec none).1 "   ".toList (by decide)

/-- C6: when the model failed to initialize (`sentiment_pipeline is None`),
every call on a valid input raises the distinct fatal `RuntimeError`, while
invalid input still raises `ValueError` first (validation precedes the
availability check), and the two error kinds are distinguishable. -/
theorem analyze_sentiment_unavailable (s : List Char)
    (h : isValidText (.str s) = true) :
    analyze_sentiment none (.str s) = .error .runtimeError ∧
    (∀ pipe : Option Classifier, ∀ t : TextVal, isValidText t = false →
      analyze_sentiment pipe t = .error .valueError) ∧
    SentimentError.runtimeError ≠ SentimentError.valueError := by
  have hs : (pyStrip s).isEmpty = false := by
    simpa [isValidText] using h
  refine ⟨by simp [analyze_sentiment, hs], ?_, by decide⟩
  intro pipe t ht
  match t with
  | .str u =>
    have hu : (pyStrip u).isEmpty = true := by
      simpa [isValidText] using ht
    simp [analyze_sentiment, hu]
  | .null => simp [analyze_sentiment]
  | .nonString => simp [analyze_sentiment]

/-- Concrete check of C6: with an unloaded pipeline, a valid review gets
`RuntimeError` and the empty review gets `ValueError`. -/
theorem analyze_sentiment_unavailable_witness :
    analyze_sentiment none (.str "good".toList) = .error .runtimeError ∧
    analyze_sentiment none (.str [] ) = .error .valueError := by
  have h := analyze_sentiment_unavailable "good".toList (by decide)
  exact ⟨h.1, h.2.1 none (.str []) (by decide)⟩

/-! ## Keyword Extractor (src/src/features/keyword_extraction.py) -/

/-- The cleaned corpus
`[text for text in texts if isinstance(text, str) and text.strip()]`. -/
def cleanedTexts (texts : List TextVal) : List (List Char) :=
  texts.filterMap fun t =>
    match t with
    | .str s => if (pyStrip s).isEmpty then none else some s
    | .null => none
    | .nonString => none

/-- The external `TfidfVectorizer(ngram_range=(1, 2), max_features=1000)`:
from the cleaned corpus, the tf-idf weight matrix (one row per document)
and the feature names. -/
def Vectorizer := List (List Char) → List (List ℚ) × List (List Char)

/-- numpy `argsort` on one weight row: indices `0 .. n-1` sorted by
ascending weight. -/
def argsortAsc (row_data : List ℚ) : List Nat :=
  List.insertionSort (fun i j => row_data.getD i 0 ≤ row_data.getD j 0)
    (List.range row_data.length)

/-- The per-document selection
`top_indices = row_data.argsort()[-top_k:][::-1]` followed by
`[feature_names[i] for i in top_indices if row_data[i] > 0]`.
Python's `[-top_k:]` slice is the whole array when `top_k = 0`. -/
def topKeywords (feature_names : List (List Char)) (row_data : List ℚ)
    (top_k : Nat) : List (List Char) :=
  let idx := argsortAsc row_data
  let top_indices :=
    if top_k = 0 then idx.reverse
    else (idx.drop (idx.length - top_k)).reverse
  (top_indices.filter (fun i => 0 < row_data.getD i 0)).map
    (fun i => feature_names.getD i [])

/-- The output loop of `extract_keywords`: walk the original inputs, read
the next matrix row for each valid input (`cleaned_index` advances only on
valid inputs, so the head of the remaining rows is that document's row),
and append `[]` for each invalid input. -/
def keywordRows (feature_names : List (List Char)) (top_k : Nat) :
    List (List ℚ) → List TextVal → List (List (List Char))
  | _, [] => []
  | rows, t :: ts =>
    if isValidText t then
      topKeywords feature_names (rows.headD []) top_k ::
        keywordRows feature_names top_k rows.tail ts
    else
      [] :: keywordRows feature_names top_k rows ts

/-- Function `extract_keywords(texts, top_k=5)`: all-invalid batches short-circuit to
one empty result per input; otherwise the vectorizer is fit on the cleaned
corpus and each input receives its top keywords (or `[]` if invalid). -/
def extract_keywords (vectorizer : Vectorizer) (texts : List TextVal)
    (top_k : Nat) : List (List (List Char)) :=
  let cleaned_texts := cleanedTexts texts
  if cleaned_texts.isEmpty then texts.map (fun _ => [])
  else
    let vt := vectorizer cleaned_texts
    keywordRows vt.2 top_k vt.1 texts

/-- The tf-idf matrix row belonging to the `i`-th original input: the
`cleaned_index`-th row, where `cleaned_index` counts the valid inputs
before position `i`. -/
def docRow (vectorizer : Vectorizer) (texts : List TextVal) (i : Nat) :
    List ℚ :=
  (((vectorizer (cleanedTexts texts)).1.drop
    ((texts.take i).countP isValidText)).headD [])

lemma topKeywords_length_le (f : List (List Char)) (row : List ℚ)
    {k : Nat} (hk : 1 ≤ k) : (topKeywords f row k).length ≤ k := by
  have hk0 : ¬ k = 0 := by omega
  simp only [topKeywords, hk0, if_neg, List.length_map, ite_false]
  calc ((((argsortAsc row).drop ((argsortAsc row).length - k)).reverse.filter
          (fun i => decide (0 < row.getD i 0))).length)
      ≤ ((argsortAsc row).drop ((argsortAsc row).length - k)).reverse.length :=
        List.length_filter_le _ _
    _ = (argsortAsc row).length - ((argsortAsc row).length - k) := by
        simp
    _ ≤ k := by omega

lemma topKeywords_mem (f : List (List Char)) (row : List ℚ) (k : Nat)
    {kw : List Char} (hkw : kw ∈ topKeywords f row k) :
    ∃ j, 0 < row.getD j 0 ∧ kw = f.getD j [] := by
  simp only [topKeywords, List.mem_map, List.mem_filter] at hkw
  obtain ⟨j, ⟨_, hpos⟩, hj⟩ := hkw
  exact ⟨j, by simpa using hpos, hj.symm⟩

lemma keywordRows_length (f : List (List Char)) (k : Nat)
    (rows : List (List ℚ)) (ts : List TextVal) :
    (keywordRows f k rows ts).length = ts.length := by
  induction ts generalizing rows with
  | nil => simp [keywordRows]
  | cons t ts ih =>
    by_cases h : isValidText t <;> simp [keywordRows, h, ih]

lemma keywordRows_getD (f : List (List Char)) (k : Nat)
    (rows : List (List ℚ)) (ts : List TextVal) (i : Nat) (hi : i < ts.length) :
    (keywordRows f k rows ts).getD i [] =
      if isValidText (ts.getD i .nonString) then
        topKeywords f ((rows.drop ((ts.take i).countP isValidText)).headD []) k
      else [] := by
  induction ts generalizing rows i with
  | nil => simp at hi
  | cons t ts ih =>
    cases i with
    | zero =>
      by_cases h : isValidText t <;> simp [keywordRows, h]
    | succ n =>
      have hn : n < ts.length := by simpa using hi
      by_cases h : isValidText t
      · rw [show keywordRows f k rows (t :: ts) =
            topKeywords f (rows.headD []) k ::
              keywordRows f k rows.tail ts from by simp [keywordRows, h]]
        rw [List.getD_cons_succ, ih rows.tail n hn]
        rw [show (t :: ts).take (n + 1) = t :: ts.take n from rfl]
        simp [List.countP_cons, h, ← List.drop_one, List.drop_drop,
          Nat.add_comm]
      · rw [show keywordRows f k rows (t :: ts) =
            [] :: keywordRows f k rows ts from by simp [keywordRows, h]]
        rw [List.getD_cons_succ, ih rows n hn]
        rw [show (t :: ts).take (n + 1) = t :: ts.take n from rfl]
        simp [List.countP_cons, h]

lemma map_const_nil_getD (l : List TextVal) (i : Nat) :
    (l.map (fun _ => ([] : List (List Char)))).getD i [] = [] := by
  induction l generalizing i with
  | nil => simp [List.getD]
  | cons x xs ih => cases i <;> simp [ih]

lemma cleanedTexts_ne_nil_of_valid {texts : List TextVal} {i : Nat}
    (hi : i < texts.length)
    (hv : isValidText (texts.getD i .nonString) = true) :
    ¬ (cleanedTexts texts).isEmpty = true := by
  intro hnil
  rw [List.isEmpty_iff] at hnil
  have hall := List.filterMap_eq_nil_iff.mp hnil
  have hmem : texts.getD i .nonString ∈ texts := by
    rw [List.getD_eq_getElem?_getD, List.getElem?_eq_getElem hi]
    exact List.getElem_mem hi
  have hnone := hall _ hmem
  match hval : texts.getD i .nonString with
  | .str s =>
    rw [hval] at hnone hv
    simp only [isValidText, Bool.not_eq_true', List.isEmpty_eq_false] at hv
    simp only at hnone
    rw [if_neg (by simpa using hv)] at hnone
    cases hnone
  | .null => rw [hval] at hv; cases hv
  | .nonString => rw [hval] at hv; cases hv

/-- C3 (amended): `extract_keywords` returns one result list per input in
input order; invalid inputs (empty, whitespace-only, non-string) yield `[]`
at their original position; each valid input at position `i` gets the top
keywords of its own matrix row (row correspondence by index); and provided
`top_k ≥ 1` the per-document result has at most `top_k` entries, always
excluding zero-weight terms. (As stated for every `top_k` the claim fails:
`top_k = 0` selects the whole array, see the counterexample.) -/
theorem extract_keywords_spec (vectorizer : Vectorizer) (texts : List TextVal)
    (top_k : Nat) (htop : 1 ≤ top_k) :
    (extract_keywords vectorizer texts top_k).length = texts.length ∧
    (∀ i, i < texts.length → isValidText (texts.getD i .nonString) = false →
      (extract_keywords vectorizer texts top_k).getD i [] = []) ∧
    (∀ i, i < texts.length → isValidText (texts.getD i .nonString) = true →
      (extract_keywords vectorizer texts top_k).getD i [] =
        topKeywords (vectorizer (cleanedTexts texts)).2
          (docRow vectorizer texts i) top_k) ∧
    (∀ f row, (topKeywords f row top_k).length ≤ top_k) ∧
    (∀ f row (kw : List Char), kw ∈ topKeywords f row top_k →
      ∃ j, 0 < row.getD j 0 ∧ kw = f.getD j []) := by
  by_cases hemp : (cleanedTexts texts).isEmpty = true
  · refine ⟨?_, ?_, ?_, fun f row => topKeywords_length_le f row htop,
      fun f row kw hkw => topKeywords_mem f row top_k hkw⟩
    · simp [extract_keywords, hemp]
    · intro i _ _
      simp [extract_keywords, hemp, map_const_nil_getD]
    · intro i hi hv
      exact absurd hemp (cleanedTexts_ne_nil_of_valid hi hv)
  · have hres : extract_keywords vectorizer texts top_k =
        keywordRows (vectorizer (cleanedTexts texts)).2 top_k
          (vectorizer (cleanedTexts texts)).1 texts := by
      simp [extract_keywords, hemp]
    refine ⟨?_, ?_, ?_, fun f row => topKeywords_length_le f row htop,
      fun f row kw hkw => topKeywords_mem f row top_k hkw⟩
    · rw [hres, keywordRows_length]
    · intro i hi hv
      rw [hres, keywordRows_getD _ _ _ _ i hi,
        if_neg (by simp only [Bool.not_eq_true]; exact hv)]
    · intro i hi hv
      rw [hres, keywordRows_getD _ _ _ _ i hi,
        if_pos hv]
      rfl

/-- Counterexample to C3 as stated: at `top_k = 0`, a valid document with
two positive-weight terms yields two keywords (Python's `[-0:]` slice is
the whole array), so the claimed `length ≤ top_k` bound fails. -/
theorem extract_keywords_topk_zero_counterexample :
    isValidText (([TextVal.str ['x']] : List TextVal).getD 0 .nonString)
      = true ∧
    ((extract_keywords (fun _ => ([[(1 : ℚ), 2]], [['a'], ['b']]))
        [TextVal.str ['x']] 0).getD 0 []).length = 2 := by
  constructor
  · decide
  · decide

/-- Concrete check of C3 (amended) at `top_k = 1`: the single valid
document's keyword list has at most one entry. -/
theorem extract_keywords_spec_witness :
    ((extract_keywords (fun _ => ([[(1 : ℚ), 2]], [['a'], ['b']]))
      [TextVal.str ['x']] 1).getD 0 []).length ≤ 1 := by
  have h := extract_keywords_spec (fun _ => ([[(1 : ℚ), 2]], [['a'], ['b']]))
    [TextVal.str ['x']] 1 (by decide)
  rw [h.2.2.1 0 (by decide) (by decide)]
  exact h.2.2.2.1 _ _

/-! ## Text Normalizer (src/src/data/text_cleaning.py) -/

/-- A Python value fed to `preprocess_reviews` (`str(text)` is total, so
non-string inputs are stringified, never rejected). -/
inductive PyVal where
  | ofString (s : List Char)
  | ofInt (n : Int)
  | ofBool (b : Bool)
  | null
deriving DecidableEq, Repr

/-- Python `str(x)` for the modelled values. -/
def pyStr : PyVal → List Char
  | .ofString s => s
  | .ofInt n => (toString n).toList
  | .ofBool true => "True".toList
  | .ofBool false => "False".toList
  | .null => "None".toList

/-- The regex class `\w` (ASCII model: letters, digits, underscore). -/
def isWordChar (c : Char) : Bool :=
  c.isAlphanum || c == '_'

/-- One spaCy token as the normalizer consumes it: its lemma and its
stopword flag. -/
structure SpacyToken where
  lemma_ : List Char
  is_stop : Bool
deriving DecidableEq, Repr

/-- The external spaCy model `nlp` (loaded with parser and NER disabled):
tokenizes a text into tokens carrying lemma and stopword information. -/
def Nlp := List Char → List SpacyToken

/-- Python `" ".join(tokens)`. -/
def joinWithSpace : List (List Char) → List Char
  | [] => []
  | [t] => t
  | t :: ts => t ++ ' ' :: joinWithSpace ts

/-- Function `preprocess_reviews`: `str(text).lower()`, strip every character that
is neither a word character nor whitespace (`re.sub(r"[^\w\s]", "", ...)`),
tokenize/lemmatize, drop stopwords, join with spaces. -/
def preprocess_reviews (nlp : Nlp) (text : PyVal) : List Char :=
  let lowered := lowerText (pyStr text)
  let cleaned := lowered.filter (fun c => isWordChar c || c.isWhitespace)
  let tokens := (nlp cleaned).filter (fun t => !t.is_stop)
  joinWithSpace (tokens.map (fun t => t.lemma_))

/-- A clean output character: a word character or whitespace, and not
uppercase. -/
def isCleanChar (c : Char) : Bool :=
  (isWordChar c || c.isWhitespace) && !c.isUpper

/-- The output invariant of the normalizer: no uppercase letters, no
non-word non-space characters. -/
def isCleanText (s : List Char) : Bool :=
  s.all isCleanChar

lemma joinWithSpace_clean (l : List (List Char))
    (h : ∀ t ∈ l, isCleanText t = true) :
    isCleanText (joinWithSpace l) = true := by
  induction l with
  | nil => decide
  | cons t ts ih =>
    match ts with
    | [] => exact h t (by simp)
    | t2 :: ts2 =>
      have ht := h t (by simp)
      have hrest := ih (fun u hu => h u (by simp [hu]))
      simp only [joinWithSpace, isCleanText, List.all_append, List.all_cons]
      simp only [isCleanText] at ht hrest
      rw [ht, hrest]
      decide

/-- C8: the normalizer never fails — non-string input is processed exactly
as its printed form — and, whenever the external lemmatizer emits clean
lemmas on the cleaned text it is given (lemmas with no uppercase and only
word/space characters), the output string has no uppercase letters and no
characters that are not word characters or whitespace. -/
theorem preprocess_reviews_spec (nlp : Nlp) (v : PyVal)
    (htok : ∀ tok ∈ nlp ((lowerText (pyStr v)).filter
        (fun c => isWordChar c || c.isWhitespace)),
      isCleanText (SpacyToken.lemma_ tok) = true) :
    isCleanText (preprocess_reviews nlp v) = true ∧
    preprocess_reviews nlp v = preprocess_reviews nlp (.ofString (pyStr v)) := by
  constructor
  · apply joinWithSpace_clean
    intro t ht
    simp only [List.mem_map] at ht
    obtain ⟨tok, htok2, rfl⟩ := ht
    exact htok tok (List.mem_of_mem_filter htok2)
  · rfl

/-- Concrete check of C8: with a one-token identity lemmatizer, a messy
input yields a clean output. -/
theorem preprocess_reviews_spec_witness :
    isCleanText (preprocess_reviews (fun s => [⟨s, false⟩])
      (.ofString "Hello, World!".toList)) = true ∧
    preprocess_reviews (fun s => [⟨s, false⟩])
      (.ofString "Hello, World!".toList) = "hello world".toList := by
  refine ⟨(preprocess_reviews_spec (fun s => [⟨s, false⟩])
    (.ofString "Hello, World!".toList) (by decide)).1, by decide⟩

/-! ## Pipeline Orchestrator (src/src/pipeline/sentiment_thematic_pipeline.py) -/

/-- One row of the enriched output table of `run_pipeline`. -/
structure EnrichedRow where
  review_text : PyVal
  cleaned_text : List Char
  sentiment_label : List Char
  sentiment_score : ℚ
  keywords : List (List Char)
  themes : List String
deriving DecidableEq, Repr

/-- Model of `Series.apply` with a raising function: the first raised exception
aborts the whole batch. -/
def mapExcept {α β ε : Type} (f : α → Except ε β) : List α → Except ε (List β)
  | [] => .ok []
  | a :: rest =>
    match f a with
    | .error e => .error e
    | .ok b =>
      match mapExcept f rest with
      | .error e => .error e
      | .ok bs => .ok (b :: bs)

/-- Assemble the output rows of `run_pipeline` from the aligned columns
(themes are `df["keywords"].apply(assign_themes)`). -/
def enrichRows : List PyVal → List (List Char) → List (List Char × ℚ) →
    List (List (List Char)) → List EnrichedRow
  | r :: rs, c :: cs, s :: ss, k :: ks =>
    ⟨r, c, s.1, s.2, k, assign_themes k⟩ :: enrichRows rs cs ss ks
  | _, _, _, _ => []

/-- Function `run_pipeline` after the Load stage: preprocess the `review` column,
apply `analyze_sentiment` (the raw classifier, not the fail-safe wrapper)
to every cleaned text, then extract keywords (`top_k=5`) and assign
themes. An exception from any row propagates and aborts the run. -/
def run_pipeline (sentiment_pipeline : Option Classifier) (nlp : Nlp)
    (vectorizer : Vectorizer) (reviews : List PyVal) :
    Except SentimentError (List EnrichedRow) :=
  let cleaned := reviews.map (preprocess_reviews nlp)
  match mapExcept (fun t => analyze_sentiment sentiment_pipeline (.str t))
      cleaned with
  | .error e => .error e
  | .ok sentiments =>
    let keywords := extract_keywords vectorizer (cleaned.map .str) 5
    .ok (enrichRows reviews cleaned sentiments keywords)

/-- C1: evaluating the orchestrator at a failing batch. A review that
cleans to the empty string (for example `"!!!"`) makes `run_pipeline` abort
with the classifier's `ValueError`: the Classify stage applies
`analyze_sentiment`, not `safe_analyze_sentiment`, so an individual row's
classification failure is fatal instead of being recorded as neutral —
while `safe_analyze_sentiment` on that same row would have produced the
`("neutral", 0.0)` fallback the claim describes. -/
theorem run_pipeline_row_failure_fatal :
    run_pipeline (some (fun _ => ("POSITIVE".toList, 1)))
      (fun _ => []) (fun _ => ([], [])) [.ofString "!!!".toList] =
      .error .valueError ∧
    safe_analyze_sentiment (some (fun _ => ("POSITIVE".toList, 1)))
      (.str (preprocess_reviews (fun _ => []) (.ofString "!!!".toList))) =
      ("neutral".toList, 0) := by
  constructor
  · rfl
  · rfl

/-! ## Translation (src/src/data/data_quality_utils.py, translate methods) -/

/-- External `langdetect.detect`: a detected language code, or a raised
`LangDetectException`. -/
def Detector := List Char → Except Unit (List Char)

/-- The external `googletrans` translation call `translate(text, src,
dest="en").text`, which may raise. -/
def Translator := List Char → List Char → Except Unit (List Char)

/-- Method `translate_to_english`: detection failure keeps the text; a non-English
detection translates, keeping the original on translation failure; English
text passes through. -/
def translate_to_english (detect : Detector) (translator : Translator)
    (text : List Char) : List Char :=
  match detect text with
  | .error _ => text
  | .ok lang =>
    if lang ≠ "en".toList then
      match translator text lang with
      | .ok translated => translated
      | .error _ => text
    else text

/-- Method `translate_non_english_text` on the text column: `asyncio.gather` over
the per-row coroutines `[self.translate_to_english(str(t)) for t in ...]`
returns one result per row in input-row order regardless of completion
order, so the bulk operation is the row-wise map (`str(t)` is the identity
on the string cells modelled here). -/
def translate_non_english_text (detect : Detector) (translator : Translator)
    (column : List (List Char)) : List (List Char) :=
  column.map (translate_to_english detect translator)

lemma translate_to_english_preserves (detect : Detector)
    (translator : Translator) (text : List Char)
    (h : detect text = .error () ∨
      ∃ lang, detect text = .ok lang ∧ lang ≠ "en".toList ∧
        translator text lang = .error ()) :
    translate_to_english detect translator text = text := by
  match h with
  | .inl hdet => simp [translate_to_english, hdet]
  | .inr ⟨lang, hdet, hne, htr⟩ =>
    simp [translate_to_english, hdet, hne, htr]

lemma map_getD_texts (f : List Char → List Char) (l : List (List Char))
    (i : Nat) (hi : i < l.length) :
    (l.map f).getD i [] = f (l.getD i []) := by
  induction l generalizing i with
  | nil => simp at hi
  | cons x xs ih =>
    cases i with
    | zero => simp
    | succ n => simpa using ih n (by simpa using hi)

/-- C7: the bulk translation returns one result per input row in input-row
order (row `i` of the output is the per-row translation of row `i` of the
input, so one row's failure cannot affect its siblings), and any row whose
detection or translation call fails keeps its original text; the operation
is total, so no exception escapes the batch call. -/
theorem translate_non_english_text_spec (detect : Detector)
    (translator : Translator) (column : List (List Char)) :
    (translate_non_english_text detect translator column).length =
      column.length ∧
    (∀ i, i < column.length →
      (translate_non_english_text detect translator column).getD i [] =
        translate_to_english detect translator (column.getD i [])) ∧
    (∀ i, i < column.length →
      (detect (column.getD i []) = .error () ∨
        ∃ lang, detect (column.getD i []) = .ok lang ∧ lang ≠ "en".toList ∧
          translator (column.getD i []) lang = .error ()) →
      (translate_non_english_text detect translator column).getD i [] =
        column.getD i []) := by
  refine ⟨by simp [translate_non_english_text], ?_, ?_⟩
  · intro i hi
    exact map_getD_texts _ column i hi
  · intro i hi hfail
    simp only [translate_non_english_text]
    rw [map_getD_texts _ column i hi]
    exact translate_to_english_preserves _ _ _ hfail

/-- The language detector of the C7 scenario: everything looks French. -/
def demoDetect : Detector := fun _ => .ok "fr".toList

/-- The translator of the C7 scenario: row 2 (`"b"`) raises, other rows
translate by prefixing `'T'`. -/
def demoTranslator : Translator := fun t _ =>
  if t = "b".toList then .error () else .ok ('T' :: t)

/-- Concrete check of C7: in a batch of 3 where row 2's translation call
raises, rows 1 and 3 come back translated, row 2 unchanged, in order. -/
theorem translate_non_english_text_spec_witness :
    (translate_non_english_text demoDetect demoTranslator
      ["a".toList, "b".toList, "c".toList]).getD 1 [] = "b".toList ∧
    translate_non_english_text demoDetect demoTranslator
      ["a".toList, "b".toList, "c".toList] =
      ["Ta".toList, "b".toList, "Tc".toList] := by
  constructor
  · rw [(translate_non_english_text_spec demoDetect demoTranslator
      ["a".toList, "b".toList, "c".toList]).2.2 1 (by decide)
      (Or.inr ⟨"fr".toList, rfl, by decide, rfl⟩)]
    rfl
  · rfl

/-! ## Analyzer (src/src/analytics/analyzer.py) -/

/-- One enriched review row as `ReviewAnalyzer.analyze_per_bank` consumes
it: the `bank_name` and `SENTIMENT_LABEL` columns plus the parsed
`theme_list`. -/
structure ReviewRow where
  bank_name : String
  sentiment_label : String
  theme_list : List String
deriving DecidableEq, Repr

/-- The per-bank aggregation result `{"top_drivers": ..., "top_pain_points":
...}`, with the dictionaries as ordered association lists. -/
structure BankInsight where
  top_drivers : List (String × Nat)
  top_pain_points : List (String × Nat)
deriving DecidableEq, Repr

/-- Pandas `explode("theme_list")["theme_list"]` over one bank's rows of one
sentiment: each (review, theme) pair contributes one occurrence (pandas
drops the `NaN` an empty list explodes to, and so does flattening). -/
def explodedThemes (rows : List ReviewRow) (bank label : String) :
    List String :=
  ((rows.filter (fun r => r.bank_name == bank && r.sentiment_label == label)).map
    (fun r => r.theme_list)).flatten

/-- Pandas `value_counts().head(top_n).to_dict()`: each distinct value paired with
its count, ordered by descending count (stably, so ties keep the underlying
counting order), truncated to `top_n`. -/
def value_counts_head (themes : List String) (top_n : Nat) :
    List (String × Nat) :=
  (List.insertionSort (fun a b => b.2 ≤ a.2)
    ((themes.dedup).map (fun t => (t, themes.count t)))).take top_n

/-- Method `analyze_per_bank(top_n)`: for each bank in order of first appearance
(pandas `unique`), rank the positive and the negative themes. -/
def analyze_per_bank (rows : List ReviewRow) (top_n : Nat) :
    List (String × BankInsight) :=
  ((rows.map (fun r => r.bank_name)).dedup).map fun bank =>
    (bank, ⟨value_counts_head (explodedThemes rows bank "positive") top_n,
            value_counts_head (explodedThemes rows bank "negative") top_n⟩)

instance : IsTotal (String × Nat) (fun a b => b.2 ≤ a.2) :=
  ⟨fun a b => Nat.le_total b.2 a.2⟩

instance : IsTrans (String × Nat) (fun a b => b.2 ≤ a.2) :=
  ⟨fun _ _ _ hab hbc => Nat.le_trans hbc hab⟩

lemma value_counts_head_length (l : List String) (n : Nat) :
    (value_counts_head l n).length ≤ n := by
  simp only [value_counts_head, List.length_take]
  exact Nat.min_le_left _ _

lemma value_counts_head_sorted (l : List String) (n : Nat) :
    (value_counts_head l n).Sorted (fun a b => b.2 ≤ a.2) := by
  have hs := List.sorted_insertionSort (fun a b : String × Nat => b.2 ≤ a.2)
    ((l.dedup).map (fun t => (t, l.count t)))
  exact List.Pairwise.sublist (List.take_sublist n _) hs

lemma value_counts_head_mem (l : List String) (n : Nat) {e : String × Nat}
    (he : e ∈ value_counts_head l n) : e.1 ∈ l ∧ e.2 = l.count e.1 := by
  have hsub : e ∈ List.insertionSort (fun a b : String × Nat => b.2 ≤ a.2)
      ((l.dedup).map (fun t => (t, l.count t))) :=
    List.take_subset n _ he
  have hmem := (List.perm_insertionSort _ _).mem_iff.mp hsub
  simp only [List.mem_map] at hmem
  obtain ⟨t, htmem, rfl⟩ := hmem
  exact ⟨List.mem_dedup.mp htmem, rfl⟩

/-- C9: `analyze_per_bank` produces one entry per distinct bank in order of
first appearance; each bank's drivers and pain points are the ranked
counts over that bank's positive (resp. negative) rows with each (review,
theme) pair counted once via the exploded theme lists; every ranking is
ordered by descending frequency, truncated to `top_n`, and each listed
theme carries its exact occurrence count. -/
theorem analyze_per_bank_spec (rows : List ReviewRow) (top_n : Nat) :
    (analyze_per_bank rows top_n).map Prod.fst =
      (rows.map (fun r => r.bank_name)).dedup ∧
    (∀ b ins, (b, ins) ∈ analyze_per_bank rows top_n →
      ins.top_drivers =
        value_counts_head (explodedThemes rows b "positive") top_n ∧
      ins.top_pain_points =
        value_counts_head (explodedThemes rows b "negative") top_n) ∧
    (∀ l n, (value_counts_head l n).length ≤ n) ∧
    (∀ l n, (value_counts_head l n).Sorted (fun a b => b.2 ≤ a.2)) ∧
    (∀ l n (e : String × Nat), e ∈ value_counts_head l n →
      e.1 ∈ l ∧ e.2 = l.count e.1) := by
  refine ⟨?_, ?_, value_counts_head_length, value_counts_head_sorted,
    fun l n e he => value_counts_head_mem l n he⟩
  · rw [analyze_per_bank, List.map_map]
    exact List.map_id'' (fun x => rfl) _
  · intro b ins hmem
    simp only [analyze_per_bank, List.mem_map] at hmem
    obtain ⟨bank, hbank, heq⟩ := hmem
    cases heq
    exact ⟨rfl, rfl⟩

/-- The three-row single-bank dataset of the C9 check. -/
def demoRows : List ReviewRow :=
  [⟨"CBE", "positive", ["UI"]⟩,
   ⟨"CBE", "positive", ["UI"]⟩,
   ⟨"CBE", "negative", ["Crash"]⟩]

/-- Concrete check of C9: two positive rows with theme `UI` and one
negative row with theme `Crash` aggregate to the expected insight. -/
theorem analyze_per_bank_spec_witness :
    (analyze_per_bank demoRows 3).map Prod.fst = ["CBE"] ∧
    analyze_per_bank demoRows 3 =
      [("CBE", ⟨[("UI", 2)], [("Crash", 1)]⟩)] := by
  constructor
  · rw [(analyze_per_bank_spec demoRows 3).1]
    decide
  · decide

/-! ## Data Quality Layer: constructor and in-place operations
(src/src/data/data_quality_utils.py)

The copy-vs-alias behaviour of `__init__` (`self.df = df.copy()`) and the
in-place mutations (`inplace=True`, assignments to `self.df`) are modelled
with an explicit object store: DataFrame objects live in a heap and are
addressed by reference, the constructor allocates a fresh object holding a
copy of the caller's value, and every method writes through `self.ref`
only. -/

/-- A pandas DataFrame value: column names and rows of cells. -/
structure DataFrame where
  cols : List (List Char)
  rows : List (List (List Char))
deriving DecidableEq, Repr

/-- The object store: DataFrame objects addressed by position. -/
abbrev Heap := List DataFrame

/-- Dereference (default object for dangling references never arises in the
verified runs). -/
def readRef (h : Heap) (r : Nat) : DataFrame :=
  List.getD h r ⟨[], []⟩

/-- In-place update of the object behind `r`. -/
def writeRef (h : Heap) (r : Nat) (d : DataFrame) : Heap :=
  List.set h r d

/-- Copying `df.copy()` / fresh object creation: append at a fresh reference. -/
def allocRef (h : Heap) (d : DataFrame) : Heap × Nat :=
  (h ++ [d], List.length h)

/-- A Python argument to the constructor: a DataFrame object or anything
else. -/
inductive PyArg where
  | dfRef (r : Nat)
  | notDataFrame
deriving DecidableEq, Repr

/-- The `DataQualityUtils` instance state: the reference held in
`self.df`. -/
structure DataQualityUtils where
  ref : Nat
deriving DecidableEq, Repr

/-- Constructor `DataQualityUtils.__init__`: `TypeError` unless the argument is a
DataFrame, else `self.df = df.copy()` — a freshly allocated object with the
caller's value. -/
def DataQualityUtils.init (h : Heap) :
    PyArg → Except Unit (Heap × DataQualityUtils)
  | .dfRef r =>
    let copied := allocRef h (readRef h r)
    .ok (copied.1, ⟨copied.2⟩)
  | .notDataFrame => .error ()

/-- Column-name normalisation of `clean_column_names`:
`str.strip().str.lower().str.replace(" ", "_")`. -/
def cleanColumnName (s : List Char) : List Char :=
  (lowerText (pyStrip s)).map (fun c => if c = ' ' then '_' else c)

/-- Method `clean_column_names` as a transformation of the table value. -/
def clean_column_names_df (d : DataFrame) : DataFrame :=
  ⟨d.cols.map cleanColumnName, d.rows⟩

/-- Keep the columns at the given indices (column selection slices every
row as well). -/
def selectCols (d : DataFrame) (keep : List Nat) : DataFrame :=
  ⟨keep.map (fun i => d.cols.getD i []),
   d.rows.map (fun row => keep.map (fun i => row.getD i []))⟩

/-- Method `drop_redundant_columns`: drop an `unnamed:_0` artifact column when
present, then keep only the first occurrence of each column name
(`df.loc[:, ~df.columns.duplicated()]`). -/
def drop_redundant_columns_df (d : DataFrame) : DataFrame :=
  let d1 :=
    if "unnamed:_0".toList ∈ d.cols then
      selectCols d ((List.range d.cols.length).filter
        (fun i => decide (d.cols.getD i [] ≠ "unnamed:_0".toList)))
    else d
  selectCols d1 ((List.range d1.cols.length).filter
    (fun i => decide (d1.cols.getD i [] ∉ d1.cols.take i)))

/-- Method `drop_duplicates(keep="first", inplace=True)`: keep the first
occurrence of each row. -/
def drop_duplicates_df (d : DataFrame) : DataFrame :=
  ⟨d.cols, d.rows.dedup⟩

/-- Method `drop_columns`: drop the listed columns where they exist (missing names
only produce a warning). -/
def drop_columns_df (cs : List (List Char)) (d : DataFrame) : DataFrame :=
  selectCols d ((List.range d.cols.length).filter
    (fun i => decide (d.cols.getD i [] ∉ cs)))

/-- Method `rename_columns`: rename via the mapping restricted to existing
columns (unknown keys only produce a warning). -/
def rename_columns_df (m : List (List Char × List Char)) (d : DataFrame) :
    DataFrame :=
  ⟨d.cols.map (fun c =>
    match m.lookup c with
    | some n => n
    | none => c), d.rows⟩

/-- The modelled chainable operations of the layer. -/
inductive DQOp where
  | cleanColumnNames
  | dropRedundantColumns
  | cleanDataframe
  | dropDuplicates
  | dropColumns (cs : List (List Char))
  | renameColumns (m : List (List Char × List Char))
deriving DecidableEq, Repr

/-- The table transformation each operation performs on `self.df`
(`clean_dataframe` chains the two column steps). -/
def applyOp : DQOp → DataFrame → DataFrame
  | .cleanColumnNames => clean_column_names_df
  | .dropRedundantColumns => drop_redundant_columns_df
  | .cleanDataframe => fun d => drop_redundant_columns_df (clean_column_names_df d)
  | .dropDuplicates => drop_duplicates_df
  | .dropColumns cs => drop_columns_df cs
  | .renameColumns m => rename_columns_df m

/-- Run one method: the in-place mutation writes through `self.ref` only. -/
def runOp (h : Heap) (u : DataQualityUtils) (op : DQOp) : Heap :=
  writeRef h u.ref (applyOp op (readRef h u.ref))

/-- Run a chain of operations. -/
def runOps (h : Heap) (u : DataQualityUtils) : List DQOp → Heap
  | [] => h
  | op :: ops => runOps (runOp h u op) u ops

lemma readRef_writeRef_ne (h : Heap) {x r : Nat} (hxr : x ≠ r)
    (d : DataFrame) : readRef (writeRef h x d) r = readRef h r := by
  simp only [readRef, writeRef, List.getD_eq_getElem?_getD]
  rw [List.getElem?_set_ne hxr]

lemma readRef_runOps_ne (u : DataQualityUtils) {r : Nat} (hur : u.ref ≠ r) :
    ∀ (ops : List DQOp) (h : Heap), readRef (runOps h u ops) r = readRef h r := by
  intro ops
  induction ops with
  | nil => intro h; rfl
  | cons op ops ih =>
    intro h
    rw [runOps, ih, runOp, readRef_writeRef_ne h hur]

lemma readRef_alloc_fresh (h : Heap) (d : DataFrame) :
    readRef (h ++ [d]) (List.length h) = d := by
  induction h with
  | nil => rfl
  | cons x xs ih => simp [readRef, List.getD] at ih ⊢

lemma readRef_append_lt (h : Heap) (d : DataFrame) {r : Nat}
    (hr : r < h.length) : readRef (h ++ [d]) r = readRef h r := by
  simp only [readRef, List.getD_eq_getElem?_getD]
  rw [List.getElem?_append, if_pos hr]

/-- C10: the constructor raises a `TypeError` for non-DataFrame input and
stores a copy of the caller's table; because every operation of the layer
mutates only the object behind the instance's own reference, any sequence
of operations leaves the caller's original DataFrame completely
unchanged. -/
theorem dataQualityUtils_init_spec (h : Heap) (r : Nat) (hr : r < h.length)
    (ops : List DQOp) :
    DataQualityUtils.init h .notDataFrame = .error () ∧
    ∀ h2 u, DataQualityUtils.init h (.dfRef r) = .ok (h2, u) →
      readRef h2 u.ref = readRef h r ∧
      u.ref ≠ r ∧
      readRef (runOps h2 u ops) r = readRef h r := by
  refine ⟨rfl, ?_⟩
  intro h2 u hinit
  simp only [DataQualityUtils.init, allocRef, Except.ok.injEq,
    Prod.mk.injEq] at hinit
  obtain ⟨hh2, hu⟩ := hinit
  subst hh2
  subst hu
  have hne : (⟨h.length⟩ : DataQualityUtils).ref ≠ r := by
    simpa using Nat.ne_of_gt hr
  refine ⟨readRef_alloc_fresh h (readRef h r), hne, ?_⟩
  rw [readRef_runOps_ne _ hne ops]
  exact readRef_append_lt h _ hr

/-- The caller's table of the C10 check: an uppercase spaced column name
and a duplicated row, so the layer's copy visibly changes. -/
def demoDF : DataFrame :=
  ⟨["A B".toList], [["x".toList], ["x".toList]]⟩

/-- Concrete check of C10: after construction on a one-object heap and a
two-operation chain, the caller's object at reference 0 is untouched while
the instance's copy at reference 1 has changed. -/
theorem dataQualityUtils_init_spec_witness :
    DataQualityUtils.init [demoDF] .notDataFrame = .error () ∧
    readRef (runOps [demoDF, demoDF] ⟨1⟩
      [.cleanColumnNames, .dropDuplicates]) 0 = demoDF ∧
    readRef (runOps [demoDF, demoDF] ⟨1⟩
      [.cleanColumnNames, .dropDuplicates]) 1 ≠ demoDF := by
  have h := dataQualityUtils_init_spec [demoDF] 0 (by decide)
    [.cleanColumnNames, .dropDuplicates]
  refine ⟨h.1, ?_, ?_⟩
  · have h2 := (h.2 [demoDF, demoDF] ⟨1⟩ rfl).2.2
    rw [h2]
    rfl
  · decide
